import Mathlib

/-!
A verification development for the supybot-git plugin (`plugin.py`,
`config.py`).  Strings are modelled as `List Char`; each definition is a
shallow embedding of the correspondingly named Python function, translated
clause by clause from the source.  The GitPython backend is external; where
its behaviour matters (commit ranges) it is modelled as a linear branch
history given newest-first, which is the order `iter_commits` yields.
-/

namespace SupybotGit

abbrev Str := List Char

/-- A commit as seen by the plugin (GitPython 0.3.x API): author name and
email, `hexsha`, and the full message. -/
structure Commit where
  authorName : Str
  authorEmail : Str
  hexsha : Str
  message : Str
deriving DecidableEq, Repr

/-- The configuration fields of `Repository.__init__` (plugin.py:112-124)
that the formatter reads. -/
structure RepoConfig where
  branch : Str
  channels : List Str
  commit_link : Str
  commit_message : Str
  commit_reply : Str
  long_name : Str
  short_name : Str
  url : Str
deriving DecidableEq, Repr

/-- The mutable per-repository state: the local mirror's branch history
(newest first, head = branch tip), the `last_commit` pointer (nullable
until the initial clone), and the pending error queue. -/
structure RepoState where
  history : List Commit
  last_commit : Option Commit
  errors : List Str
deriving DecidableEq, Repr

/-- `get_commit_id` under the 0.3.x API returns `commit.hexsha`
(plugin.py:160-161). -/
def get_commit_id (c : Commit) : Str := c.hexsha

/-- Python `s[s.rfind('/')+1:]`: the suffix after the last `/`, or the
whole string when there is no `/` (rfind returns -1). -/
def afterLastSlash (s : Str) : Str :=
  (s.reverse.takeWhile (fun c => c ≠ '/')).reverse

/-- Python `s.split('\n')` on a character list: never empty, and the
separator is consumed. -/
def splitLines : Str → List Str
  | [] => [[]]
  | c :: rest =>
    if c = '\n' then [] :: splitLines rest
    else
      match splitLines rest with
      | l :: ls => (c :: l) :: ls
      | [] => [[c]]

/-- First line of a commit message: `commit.message.split('\n')[0]`
(plugin.py:225). -/
def firstLine (s : Str) : Str := s.takeWhile (fun c => c ≠ '\n')

/-- The scan state of `format_message` (plugin.py:215-217). -/
inductive Mode where
  | normal
  | subst
  | color
deriving DecidableEq, Repr

/-- The per-line character scan of `format_message` (plugin.py:240-260),
parameterised by the substitution table.  `color` is the color-code buffer,
reset on entering the color state via `%(`. -/
def scanLine (subst : Char → Option Str) : Mode → Str → Str → Str
  | Mode.normal, _, [] => []
  | Mode.normal, color, c :: rest =>
    if c = '%' then scanLine subst Mode.subst color rest
    else c :: scanLine subst Mode.normal color rest
  | Mode.subst, _, [] => []
  | Mode.subst, color, c :: rest =>
    match subst c with
    | some s => s ++ scanLine subst Mode.normal color rest
    | none =>
      if c = '(' then scanLine subst Mode.color [] rest
      else c :: scanLine subst Mode.normal color rest
  | Mode.color, _, [] => []
  | Mode.color, color, c :: rest =>
    if c = ')' then '\x03' :: (color ++ scanLine subst Mode.normal color rest)
    else scanLine subst Mode.color (color ++ [c]) rest

/-- The two-state scan of `format_link` (plugin.py:192-207): a plain
escaped/unescaped flag, substituting only `c` (short hash) and `C` (full
hash); any other escaped character is emitted literally. -/
def linkScan (commit : Commit) : Bool → Str → Str
  | _, [] => []
  | true, c :: rest =>
    (if c = 'c' then (get_commit_id commit).take 7
     else if c = 'C' then get_commit_id commit
     else [c]) ++ linkScan commit false rest
  | false, c :: rest =>
    if c = '%' then linkScan commit true rest
    else c :: linkScan commit false rest

/-- `Repository.format_link` (plugin.py:189-207). -/
def format_link (r : RepoConfig) (commit : Commit) : Str :=
  linkScan commit false r.commit_link

/-- The substitution table of `format_message` (plugin.py:218-232). -/
def substTable (r : RepoConfig) (commit : Commit) (c : Char) : Option Str :=
  if c = 'a' then some commit.authorName
  else if c = 'b' then some (afterLastSlash r.branch)
  else if c = 'c' then some ((get_commit_id commit).take 7)
  else if c = 'C' then some (get_commit_id commit)
  else if c = 'e' then some commit.authorEmail
  else if c = 'l' then some (format_link r commit)
  else if c = 'm' then some (firstLine commit.message)
  else if c = 'n' then some r.long_name
  else if c = 's' then some r.short_name
  else if c = 'u' then some r.url
  else if c = 'r' then some ['\x0f']
  else if c = '!' then some ['\x02']
  else if c = '%' then some ['%']
  else none

/-- The restricted table of C3's comparison: only `c` and `C`. -/
def linkSubst (commit : Commit) (c : Char) : Option Str :=
  if c = 'c' then some ((get_commit_id commit).take 7)
  else if c = 'C' then some (get_commit_id commit)
  else none

/-- `Repository.format_message` (plugin.py:209-262): a falsy (absent or
empty) `format_str` falls back to the configured commit message template;
the template is split on line breaks and each line is scanned from the
normal state with an empty color buffer. -/
def format_message (r : RepoConfig) (commit : Commit)
    (format_str : Option Str) : List Str :=
  let fs := match format_str with
    | none => r.commit_message
    | some s => if s = [] then r.commit_message else s
  (splitLines fs).map (scanLine (substTable r commit) Mode.normal [])

/-- Does the two-state link scan ever meet `(` in the escaped state (a
color escape `%(`)?  Used to delimit where the link scan and the
three-state scan agree. -/
def hasColorEscape : Bool → Str → Bool
  | _, [] => false
  | true, c :: rest => if c = '(' then true else hasColorEscape false rest
  | false, c :: rest => hasColorEscape (c == '%') rest

/-- The commits reachable from the branch tip but not from `last`
(`git rev-list last..tip`), on a linear history given newest-first: the
prefix of the history strictly above `last`.  `iter_commits` yields this
range newest-first. -/
def commitsBetween (last : Commit) (history : List Commit) : List Commit :=
  history.takeWhile (fun c => c.hexsha != last.hexsha)

/-- `Repository.get_new_commits` (plugin.py:165-178), 0.3.x path: list the
range `last_commit..branch`, then advance `last_commit` to the branch tip
(`self.repo.commit(self.branch)`, the head of the newest-first history).
A `none` pointer is unreachable in the plugin (`clone` sets it before any
poll); that branch is left inert. -/
def get_new_commits (s : RepoState) : List Commit × RepoState :=
  match s.last_commit with
  | none => ([], s)
  | some lc =>
    (commitsBetween lc s.history, { s with last_commit := s.history.head? })

/-- The poll step of `Git._poll` (plugin.py:445) that obtains the commits
to display: `repository.get_new_commits()[::-1]`. -/
def poll_new_commits (s : RepoState) : List Commit × RepoState :=
  ((get_new_commits s).1.reverse, (get_new_commits s).2)

/-- `Repository.get_recent_commits` (plugin.py:180-187), 0.3.x path:
`list(self.repo.iter_commits(self.branch))[:count]`.  No field of the
repository is assigned, so the state is returned unchanged. -/
def get_recent_commits (s : RepoState) (count : Nat) : List Commit × RepoState :=
  (s.history.take count, s)

/-- The options of one config-file section, as key/value pairs in the
order the (unordered) Python dict enumerates them. -/
abbrev Options := List (Str × Str)

/-- Python `options.get(key)` / `key in options`. -/
def optGet (opts : Options) (key : Str) : Option Str :=
  (opts.find? (fun kv => kv.1 == key)).map (fun kv => kv.2)

/-- plugin.py:100. -/
def required_values : List Str := [("short name").toList, "url".toList]

/-- plugin.py:101-102. -/
def optional_values : List Str :=
  ["branch".toList, "channel".toList, "channels".toList,
   ("commit link").toList, ("commit message").toList,
   ("commit reply").toList]

/-- Python whitespace for `str.split()` with no argument. -/
def isPySpace (c : Char) : Bool :=
  c == ' ' || c == '\t' || c == '\n' || c == '\x0b' || c == '\x0c' || c == '\r'

/-- Python `s.split()`: split on runs of whitespace, dropping empties. -/
def pySplitGo (acc : Str) : Str → List Str
  | [] => if acc = [] then [] else [acc.reverse]
  | c :: rest =>
    if isPySpace c then
      if acc = [] then pySplitGo [] rest else acc.reverse :: pySplitGo [] rest
    else pySplitGo (c :: acc) rest

def pySplit (s : Str) : List Str := pySplitGo [] s

/-- How `Repository.__init__` can fail (plugin.py:96-124).  The first two
are the validation exceptions of lines 105 and 109, carrying the section
name and the offending key.  `noneAttributeError` is the uncaught Python
`AttributeError` raised at line 114 when both `channels` and `channel` are
absent: `options.get('channels', options.get('channel'))` is `None` and
`None.split()` fails; it names neither a key nor a section. -/
inductive InitError where
  | missingRequired (sect key : Str)
  | unrecognizedValue (sect key : Str)
  | noneAttributeError
deriving DecidableEq, Repr

/-- The first required key absent from the options (plugin.py:103-106). -/
def findMissingRequired (opts : Options) : Option Str :=
  required_values.find? (fun k => (optGet opts k).isNone)

/-- The first key that is neither required nor optional
(plugin.py:107-110). -/
def findUnrecognized (opts : Options) : Option Str :=
  (opts.map (fun kv => kv.1)).find?
    (fun k => !(required_values.contains k) && !(optional_values.contains k))

/-- `Repository.__init__` (plugin.py:91-131) up to its pure configuration
outcome: the validation of lines 99-110, then the field initialization of
lines 112-124.  Filesystem and clone effects (lines 126-131) are outside
the embedding. -/
def repository_init (long_name : Str) (opts : Options) :
    Except InitError RepoConfig :=
  match findMissingRequired opts with
  | some k => Except.error (InitError.missingRequired long_name k)
  | none =>
    match findUnrecognized opts with
    | some k => Except.error (InitError.unrecognizedValue long_name k)
    | none =>
      match (optGet opts "channels".toList).orElse
          (fun _ => optGet opts "channel".toList) with
      | none => Except.error InitError.noneAttributeError
      | some chans =>
        Except.ok {
          branch := ("origin/").toList ++
            ((optGet opts "branch".toList).getD "master".toList)
          channels := pySplit chans
          commit_link := (optGet opts ("commit link").toList).getD []
          commit_message :=
            (optGet opts ("commit message").toList).getD
              ("[%s|%b|%a] %m").toList
          commit_reply := (optGet opts ("commit reply").toList).getD []
          long_name := long_name
          short_name := (optGet opts ("short name").toList).getD []
          url := (optGet opts "url".toList).getD [] }

/-- Python `l[-k:]`: the last `k` elements when `k > 0`; the whole list
when `k = 0` (a `-0` slice start is `0`). -/
def pyTakeLast (l : List α) (k : Nat) : List α :=
  if k = 0 then l else l.drop (l.length - k)

def natStr (n : Nat) : Str := (Nat.repr n).toList

/-- The burst summary of plugin.py:396-397:
`"Showing latest %d of %d commits to %s..."`. -/
def summary_line (cap n : Nat) (long_name : Str) : Str :=
  ("Showing latest ").toList ++ natStr cap ++ (" of ").toList ++ natStr n ++
    (" commits to ").toList ++ long_name ++ ("...").toList

/-- `Git._display_commits` (plugin.py:390-402) as the sequence of lines
queued to one channel: a summary line when the commit count exceeds
`maxCommitsAtOnce`, then every line of `format_message` for each commit of
`commits[-cap:]`. -/
def display_commits (cap : Nat) (r : RepoConfig) (commits : List Commit) :
    List Str :=
  (if commits.length > cap then [summary_line cap commits.length r.long_name]
   else [])
  ++ (pyTakeLast commits cap).flatMap (fun c => format_message r c none)

/-! Concrete sample data used to evaluate the embedding on closed inputs. -/

def cmSample : Commit :=
  ⟨"nstark".toList, ("ns@w.org").toList, ("abc1234def8").toList,
   ("Fix bugs.").toList⟩

def cmSample2 : Commit :=
  ⟨"jsnow".toList, ("js@w.org").toList, ("bcd2345eff9").toList,
   ("Brooding.").toList⟩

def cmBase : Commit := ⟨"a".toList, ("a@x").toList, "h0".toList, "base".toList⟩

def cmOld : Commit := ⟨"b".toList, ("b@x").toList, "h1".toList, "old".toList⟩

def cmNew : Commit := ⟨"c".toList, ("c@x").toList, "h2".toList, "new".toList⟩

def cmBadAuthor : Commit :=
  ⟨"a\nb".toList, ("e@x").toList, "h3".toList, "msg".toList⟩

def rcSample : RepoConfig :=
  ⟨("origin/master").toList, [("#test").toList], [],
   ("[%s|%b|%a] %m").toList, [], ("Test Repository").toList, "r1".toList,
   ("git://x").toList⟩

def rcColorLink : RepoConfig := { rcSample with commit_link := ("%(x)").toList }

def rcPlainLink : RepoConfig := { rcSample with commit_link := ("a%cb").toList }

def rcNoLink : RepoConfig := rcSample

def rcMultiMsg : RepoConfig := { rcSample with commit_message := "x\ny".toList }

def stSample : RepoState := ⟨[cmNew, cmOld, cmBase], some cmBase, []⟩

/-- A section with both required keys but neither `channel` nor
`channels`. -/
def optsNoChannel : Options :=
  [(("short name").toList, "r1".toList), ("url".toList, ("git://x").toList)]

/-! ### Auxiliary lemmas -/

lemma splitLines_ne_nil : ∀ s : Str, splitLines s ≠ [] := by
  intro s
  cases s with
  | nil => simp [splitLines]
  | cons c rest =>
    by_cases h : c = '\n'
    · simp [splitLines, h]
    · simp only [splitLines, if_neg h]
      cases splitLines rest <;> simp

lemma splitLines_append (s2 : Str) :
    ∀ s1 : Str, splitLines (s1 ++ '\n' :: s2) = splitLines s1 ++ splitLines s2 := by
  intro s1
  induction s1 with
  | nil => simp [splitLines]
  | cons c rest ih =>
    by_cases h : c = '\n'
    · subst h
      simp [splitLines, ih]
    · obtain ⟨l0, ls, h0⟩ : ∃ l0 ls, splitLines rest = l0 :: ls := by
        cases hh : splitLines rest with
        | nil => exact absurd hh (splitLines_ne_nil rest)
        | cons a b => exact ⟨a, b, rfl⟩
      simp [splitLines, h, ih, h0]

lemma splitLines_no_newline : ∀ (s l : Str), l ∈ splitLines s → '\n' ∉ l := by
  intro s
  induction s with
  | nil =>
    intro l hl
    simp [splitLines] at hl
    simp [hl]
  | cons c rest ih =>
    intro l hl
    by_cases h : c = '\n'
    · rw [h] at hl
      simp only [splitLines, if_pos rfl] at hl
      rcases List.mem_cons.mp hl with h1 | h1
      · simp [h1]
      · exact ih l h1
    · simp only [splitLines, if_neg h] at hl
      cases hh : splitLines rest with
      | nil => rw [hh] at hl; simp at hl; simp [hl, Ne.symm h]
      | cons l0 ls =>
        rw [hh] at hl
        rcases List.mem_cons.mp hl with h1 | h1
        · subst h1
          intro hmem
          rcases List.mem_cons.mp hmem with h2 | h2
          · exact h h2.symm
          · exact ih l0 (hh ▸ List.mem_cons_self l0 ls) h2
        · exact ih l (hh ▸ List.mem_cons_of_mem l0 h1)

lemma scanLine_nil (subst : Char → Option Str) (mode : Mode) (buf : Str) :
    scanLine subst mode buf [] = [] := by
  cases mode <;> rfl

lemma scanLine_no_newline (subst : Char → Option Str)
    (hs : ∀ ch s, subst ch = some s → '\n' ∉ s) :
    ∀ (line : Str) (mode : Mode) (buf : Str), '\n' ∉ line → '\n' ∉ buf →
      '\n' ∉ scanLine subst mode buf line := by
  intro line
  induction line with
  | nil => intro mode buf _ _; rw [scanLine_nil]; simp
  | cons c rest ih =>
    intro mode buf hline hbuf
    have hc : c ≠ '\n' := fun h => hline (h ▸ List.mem_cons_self c rest)
    have hrest : '\n' ∉ rest := fun h => hline (List.mem_cons_of_mem _ h)
    cases mode with
    | normal =>
      by_cases hp : c = '%'
      · simpa [scanLine, hp] using ih Mode.subst buf hrest hbuf
      · simp only [scanLine, if_neg hp]
        intro hmem
        rcases List.mem_cons.mp hmem with h | h
        · exact hc h.symm
        · exact ih Mode.normal buf hrest hbuf h
    | subst =>
      cases hsub : subst c with
      | some s =>
        simp only [scanLine, hsub]
        intro hmem
        rcases List.mem_append.mp hmem with h | h
        · exact hs c s hsub h
        · exact ih Mode.normal buf hrest hbuf h
      | none =>
        by_cases hpar : c = '('
        · simp only [scanLine, hsub, if_pos hpar]
          exact ih Mode.color [] hrest (by simp)
        · simp only [scanLine, hsub, if_neg hpar]
          intro hmem
          rcases List.mem_cons.mp hmem with h | h
          · exact hc h.symm
          · exact ih Mode.normal buf hrest hbuf h
    | color =>
      by_cases hpar : c = ')'
      · simp only [scanLine, if_pos hpar]
        intro hmem
        rcases List.mem_cons.mp hmem with h | h
        · exact absurd h (by decide)
        · rcases List.mem_append.mp h with h2 | h2
          · exact hbuf h2
          · exact ih Mode.normal buf hrest hbuf h2
      · simp only [scanLine, if_neg hpar]
        refine ih Mode.color (buf ++ [c]) hrest ?_
        intro hmem
        rcases List.mem_append.mp hmem with h | h
        · exact hbuf h
        · simp at h
          exact hc h.symm

lemma mem_of_mem_takeWhile {α : Type} (p : α → Bool) :
    ∀ (l : List α) (x : α), x ∈ l.takeWhile p → x ∈ l := by
  intro l
  induction l with
  | nil => intro x h; exact absurd h (by simp)
  | cons a t ih =>
    intro x h
    rw [List.takeWhile_cons] at h
    by_cases hp : p a = true
    · rw [if_pos hp] at h
      rcases List.mem_cons.mp h with h1 | h1
      · exact h1 ▸ List.mem_cons_self a t
      · exact List.mem_cons_of_mem a (ih x h1)
    · rw [if_neg hp] at h
      exact absurd h (by simp)

lemma mem_afterLastSlash {x : Char} {s : Str} (h : x ∈ afterLastSlash s) :
    x ∈ s := by
  unfold afterLastSlash at h
  rw [List.mem_reverse] at h
  have h2 := mem_of_mem_takeWhile _ _ _ h
  rwa [List.mem_reverse] at h2

lemma firstLine_no_newline (s : Str) : '\n' ∉ firstLine s := by
  intro h
  have := List.mem_takeWhile_imp h
  simp at this

lemma linkScan_no_newline (commit : Commit) (hsha : '\n' ∉ commit.hexsha) :
    ∀ (tmpl : Str) (b : Bool), '\n' ∉ tmpl → '\n' ∉ linkScan commit b tmpl := by
  intro tmpl
  induction tmpl with
  | nil => intro b _; cases b <;> simp [linkScan]
  | cons c rest ih =>
    intro b htmpl
    have hc : c ≠ '\n' := fun h => htmpl (h ▸ List.mem_cons_self c rest)
    have hrest : '\n' ∉ rest := fun h => htmpl (List.mem_cons_of_mem _ h)
    cases b with
    | true =>
      simp only [linkScan]
      intro hmem
      rcases List.mem_append.mp hmem with h | h
      · by_cases h1 : c = 'c'
        · rw [if_pos h1] at h
          exact hsha (List.take_subset 7 _ h)
        · by_cases h2 : c = 'C'
          · rw [if_neg h1, if_pos h2] at h
            exact hsha h
          · rw [if_neg h1, if_neg h2] at h
            simp at h
            exact hc h.symm
      · exact ih false hrest h
    | false =>
      by_cases hp : c = '%'
      · simpa [linkScan, hp] using ih true hrest
      · simp only [linkScan, if_neg hp]
        intro hmem
        rcases List.mem_cons.mp hmem with h | h
        · exact hc h.symm
        · exact ih false hrest h

lemma substTable_no_newline (r : RepoConfig) (commit : Commit)
    (hbr : '\n' ∉ r.branch) (hsha : '\n' ∉ commit.hexsha)
    (han : '\n' ∉ commit.authorName) (hae : '\n' ∉ commit.authorEmail)
    (hcl : '\n' ∉ r.commit_link) (hln : '\n' ∉ r.long_name)
    (hsn : '\n' ∉ r.short_name) (hu : '\n' ∉ r.url) :
    ∀ ch s, substTable r commit ch = some s → '\n' ∉ s := by
  intro ch s hch
  unfold substTable at hch
  by_cases h1 : ch = 'a'
  · rw [if_pos h1] at hch
    injection hch with hs0
    subst hs0
    exact han
  · rw [if_neg h1] at hch
    by_cases h2 : ch = 'b'
    · rw [if_pos h2] at hch
      injection hch with hs0
      subst hs0
      intro hx
      exact hbr (mem_afterLastSlash hx)
    · rw [if_neg h2] at hch
      by_cases h3 : ch = 'c'
      · rw [if_pos h3] at hch
        injection hch with hs0
        subst hs0
        intro hx
        exact hsha (List.take_subset 7 _ hx)
      · rw [if_neg h3] at hch
        by_cases h4 : ch = 'C'
        · rw [if_pos h4] at hch
          injection hch with hs0
          subst hs0
          exact hsha
        · rw [if_neg h4] at hch
          by_cases h5 : ch = 'e'
          · rw [if_pos h5] at hch
            injection hch with hs0
            subst hs0
            exact hae
          · rw [if_neg h5] at hch
            by_cases h6 : ch = 'l'
            · rw [if_pos h6] at hch
              injection hch with hs0
              subst hs0
              exact linkScan_no_newline commit hsha r.commit_link false hcl
            · rw [if_neg h6] at hch
              by_cases h7 : ch = 'm'
              · rw [if_pos h7] at hch
                injection hch with hs0
                subst hs0
                exact firstLine_no_newline commit.message
              · rw [if_neg h7] at hch
                by_cases h8 : ch = 'n'
                · rw [if_pos h8] at hch
                  injection hch with hs0
                  subst hs0
                  exact hln
                · rw [if_neg h8] at hch
                  by_cases h9 : ch = 's'
                  · rw [if_pos h9] at hch
                    injection hch with hs0
                    subst hs0
                    exact hsn
                  · rw [if_neg h9] at hch
                    by_cases h10 : ch = 'u'
                    · rw [if_pos h10] at hch
                      injection hch with hs0
                      subst hs0
                      exact hu
                    · rw [if_neg h10] at hch
                      by_cases h11 : ch = 'r'
                      · rw [if_pos h11] at hch
                        injection hch with hs0
                        subst hs0
                        decide
                      · rw [if_neg h11] at hch
                        by_cases h12 : ch = '!'
                        · rw [if_pos h12] at hch
                          injection hch with hs0
                          subst hs0
                          decide
                        · rw [if_neg h12] at hch
                          by_cases h13 : ch = '%'
                          · rw [if_pos h13] at hch
                            injection hch with hs0
                            subst hs0
                            decide
                          · rw [if_neg h13] at hch
                            exact Option.noConfusion hch

/-! ### C4 -/

/-- C4 (counterexample): a commit whose author name embeds a line break is
substituted verbatim by `%a`, so the single produced line contains a line
break; the claim fails for commits with arbitrary author text. -/
theorem c4_counterexample :
    format_message rcSample cmBadAuthor (some ("%a").toList) =
      ["a\nb".toList] ∧ '\n' ∈ ("a\nb").toList := by
  constructor
  · decide
  · decide

/-- C4 (amended): every produced line of `format_message` is free of line
breaks provided the substituted repository metadata (branch, long and short
name, URL, link template) and commit identity fields (author name, email,
hash) are free of line breaks; the commit message may be arbitrary, since
only its first line is substituted, and the template may contain line
breaks, since it is split on them. -/
theorem c4_no_embedded_linebreaks (r : RepoConfig) (commit : Commit)
    (fmt : Option Str)
    (hbr : '\n' ∉ r.branch) (hsha : '\n' ∉ commit.hexsha)
    (han : '\n' ∉ commit.authorName) (hae : '\n' ∉ commit.authorEmail)
    (hcl : '\n' ∉ r.commit_link) (hln : '\n' ∉ r.long_name)
    (hsn : '\n' ∉ r.short_name) (hu : '\n' ∉ r.url) :
    ∀ l ∈ format_message r commit fmt, '\n' ∉ l := by
  intro l hl
  simp only [format_message] at hl
  rcases List.mem_map.mp hl with ⟨line, hline, rfl⟩
  exact scanLine_no_newline _
    (substTable_no_newline r commit hbr hsha han hae hcl hln hsn hu)
    line Mode.normal [] (splitLines_no_newline _ line hline) (by simp)

theorem c4_witness :
    ('\n' ∉ rcSample.branch ∧ '\n' ∉ cmSample.hexsha ∧
     '\n' ∉ cmSample.authorName ∧ '\n' ∉ cmSample.authorEmail ∧
     '\n' ∉ rcSample.commit_link ∧ '\n' ∉ rcSample.long_name ∧
     '\n' ∉ rcSample.short_name ∧ '\n' ∉ rcSample.url) ∧
    '\n' ∉ (format_message rcSample cmSample none).headD [] :=
  ⟨⟨by decide, by decide, by decide, by decide, by decide, by decide,
    by decide, by decide⟩,
   c4_no_embedded_linebreaks rcSample cmSample none (by decide) (by decide)
     (by decide) (by decide) (by decide) (by decide) (by decide) (by decide)
     ((format_message rcSample cmSample none).headD []) (by decide)⟩

/-! ### C7 -/

/-- C7 (counterexample): `format_message` replaces a falsy template with
the configured commit message template (plugin.py:234-235), so the empty
template against a two-line configured template produces two output lines,
not the one line the empty template has. -/
theorem c7_counterexample :
    (format_message rcMultiMsg cmSample (some [])).length = 2 ∧
    (splitLines ([] : Str)).length = 1 := by
  constructor
  · decide
  · decide

/-- C7 (amended): for every non-empty template string, the renderer
produces exactly one output line per line of the template, in template
order (the output is the line-wise scan of the split template); the empty
template instead falls back to the configured commit message template. -/
theorem c7_line_count (r : RepoConfig) (commit : Commit) (fs : Str)
    (h : fs ≠ []) :
    format_message r commit (some fs) =
      (splitLines fs).map (scanLine (substTable r commit) Mode.normal []) ∧
    (format_message r commit (some fs)).length = (splitLines fs).length := by
  refine ⟨by simp [format_message, h], ?_⟩
  simp [format_message, h]

theorem c7_witness :
    ("ab\ncd").toList ≠ [] ∧
    (format_message rcSample cmSample (some ("ab\ncd").toList)).length =
      (splitLines ("ab\ncd").toList).length :=
  ⟨by decide, (c7_line_count rcSample cmSample ("ab\ncd").toList (by decide)).2⟩

/-! ### C8 -/

/-- C8: in the normal scan state, the escape `%%` emits a single literal
`%` (via the `'%': '%'` table entry), and for any character `x` that is
not a substitution key and not `(`, the escape `%x` emits the literal `x`;
both resume the normal state, and neither is an error. -/
theorem c8_escape_literals (r : RepoConfig) (commit : Commit)
    (buf rest : Str) (x : Char) (hx : substTable r commit x = none)
    (hpar : x ≠ '(') :
    scanLine (substTable r commit) Mode.normal buf ('%' :: '%' :: rest) =
      '%' :: scanLine (substTable r commit) Mode.normal buf rest ∧
    scanLine (substTable r commit) Mode.normal buf ('%' :: x :: rest) =
      x :: scanLine (substTable r commit) Mode.normal buf rest := by
  have hpct : substTable r commit '%' = some ['%'] := rfl
  constructor
  · simp [scanLine, hpct]
  · simp [scanLine, hx, hpar]

theorem c8_witness :
    substTable rcSample cmSample 'z' = none ∧ 'z' ≠ '(' ∧
    (scanLine (substTable rcSample cmSample) Mode.normal []
        ('%' :: '%' :: "t".toList) =
      '%' :: scanLine (substTable rcSample cmSample) Mode.normal []
        "t".toList ∧
     scanLine (substTable rcSample cmSample) Mode.normal []
        ('%' :: 'z' :: "t".toList) =
      'z' :: scanLine (substTable rcSample cmSample) Mode.normal []
        "t".toList) :=
  ⟨by decide, by decide,
   c8_escape_literals rcSample cmSample [] "t".toList 'z' (by decide)
     (by decide)⟩

/-! ### C10 -/

/-- C10: the scan emits nothing further once a line is exhausted, in every
state and with any pending color buffer (a trailing `%` or an unterminated
color escape contributes nothing), and `format_message` renders the lines
of a template independently: splitting a template at a line break splits
the output accordingly (each line restarts in the normal state with empty
buffers), for non-empty halves (an empty half would trigger the
falsy-template fallback). -/
theorem c10_line_isolation :
    (∀ (subst : Char → Option Str) (mode : Mode) (buf : Str),
        scanLine subst mode buf [] = []) ∧
    (∀ (r : RepoConfig) (commit : Commit) (s1 s2 : Str), s1 ≠ [] → s2 ≠ [] →
        format_message r commit (some (s1 ++ '\n' :: s2)) =
          format_message r commit (some s1) ++
            format_message r commit (some s2)) := by
  refine ⟨scanLine_nil, ?_⟩
  intro r commit s1 s2 h1 h2
  have hne : s1 ++ '\n' :: s2 ≠ [] := by simp
  simp [format_message, hne, h1, h2, splitLines_append]

theorem c10_witness :
    ("a%").toList ≠ [] ∧ "b".toList ≠ [] ∧
    format_message rcSample cmSample (some (("a%").toList ++ '\n' :: "b".toList)) =
      format_message rcSample cmSample (some ("a%").toList) ++
        format_message rcSample cmSample (some "b".toList) :=
  ⟨by decide, by decide,
   c10_line_isolation.2 rcSample cmSample ("a%").toList "b".toList
     (by decide) (by decide)⟩

/-! ### C3 -/

lemma linkScan_eq_scanLine (commit : Commit) :
    ∀ (tmpl : Str) (b : Bool) (buf : Str), hasColorEscape b tmpl = false →
      linkScan commit b tmpl =
        scanLine (linkSubst commit) (if b then Mode.subst else Mode.normal)
          buf tmpl := by
  intro tmpl
  induction tmpl with
  | nil => intro b buf _; cases b <;> simp [linkScan, scanLine]
  | cons c rest ih =>
    intro b buf h
    cases b with
    | true =>
      simp only [hasColorEscape] at h
      by_cases hpar : c = '('
      · rw [if_pos hpar] at h
        exact absurd h (by simp)
      · rw [if_neg hpar] at h
        by_cases hc : c = 'c'
        · subst hc
          simp only [linkScan, if_pos rfl, if_true]
          have : linkSubst commit 'c' = some ((get_commit_id commit).take 7) :=
            rfl
          simp [scanLine, this, ih false buf h]
        · by_cases hC : c = 'C'
          · subst hC
            simp only [linkScan, if_neg (by decide : ('C' : Char) ≠ 'c'),
              if_pos rfl, if_true]
            have : linkSubst commit 'C' = some (get_commit_id commit) := rfl
            simp [scanLine, this, ih false buf h]
          · have hnone : linkSubst commit c = none := by
              simp [linkSubst, hc, hC]
            simp [linkScan, hc, hC, scanLine, hnone, hpar,
              ih false buf h]
    | false =>
      simp only [hasColorEscape] at h
      by_cases hp : c = '%'
      · subst hp
        simp only [beq_self_eq_true] at h
        simpa [linkScan, scanLine] using ih true buf h
      · rw [show (c == '%') = false by simp [hp]] at h
        simp [linkScan, hp, scanLine, ih false buf h]

/-- C3 (counterexample): on the link template `%(x)` the two scans
disagree: `format_link` has no color state and renders the escaped `(`
literally (`(x)`), while the three-state scan restricted to the `c`/`C`
table treats `%(` as a color escape and emits a color control sequence.
The empty-template half of the claim does hold. -/
theorem c3_counterexample :
    format_link rcColorLink cmSample ≠
      scanLine (linkSubst cmSample) Mode.normal [] rcColorLink.commit_link ∧
    format_link rcColorLink cmSample = ("(x)").toList := by
  constructor
  · decide
  · decide

/-- C3 (amended): link rendering is a two-state (normal/escaped) scan with
the restricted substitutions `c` and `C` and no color state; it produces
exactly the same output as the three-state scan restricted to that table
on every link template that contains no color escape (no `(` met in the
escaped state), and for the empty link template it produces the empty
string. -/
theorem c3_link_scan_agreement (r : RepoConfig) (commit : Commit)
    (h : hasColorEscape false r.commit_link = false) :
    format_link r commit =
      scanLine (linkSubst commit) Mode.normal [] r.commit_link ∧
    (r.commit_link = [] → format_link r commit = []) := by
  constructor
  · exact linkScan_eq_scanLine commit r.commit_link false [] h
  · intro he
    simp [format_link, he, linkScan]

theorem c3_witness :
    hasColorEscape false rcPlainLink.commit_link = false ∧
    format_link rcPlainLink cmSample =
      scanLine (linkSubst cmSample) Mode.normal [] rcPlainLink.commit_link :=
  ⟨by decide, (c3_link_scan_agreement rcPlainLink cmSample (by decide)).1⟩

/-! ### C1 -/

lemma commitsBetween_of_split (lc : Commit) :
    ∀ (pre : List Commit) (lc' : Commit) (rest : List Commit),
      lc'.hexsha = lc.hexsha → (∀ c ∈ pre, c.hexsha ≠ lc.hexsha) →
      commitsBetween lc (pre ++ lc' :: rest) = pre := by
  intro pre
  induction pre with
  | nil =>
    intro lc' rest hid _
    simp [commitsBetween, List.takeWhile, hid]
  | cons c pre ih =>
    intro lc' rest hid hpre
    have hc : c.hexsha ≠ lc.hexsha := hpre c (List.mem_cons_self c pre)
    have hrec := ih lc' rest hid (fun x hx => hpre x (List.mem_cons_of_mem c hx))
    have hbc : (c.hexsha != lc.hexsha) = true := bne_iff_ne.mpr hc
    simp only [commitsBetween] at hrec ⊢
    simp [List.takeWhile, hbc, hrec]

/-- C1 (counterexample): with `lastCommit = cmBase` and branch history
tip-first `[cmNew, cmOld, cmBase]`, `get_new_commits` returns the range
`[cmNew, cmOld]` — newest-first — not the oldest-first `[cmOld, cmNew]`
the claim asserts it returns to its caller.  The reversal to oldest-first
happens in the caller `_poll` (`get_new_commits()[::-1]`), not in
`get_new_commits` itself. -/
theorem c1_counterexample :
    (get_new_commits stSample).1 = [cmNew, cmOld] ∧
    (get_new_commits stSample).1 ≠ [cmOld, cmNew] := by
  constructor
  · decide
  · decide

/-- C1 (amended): for every repository state whose non-null `lastCommit`
occurs in the branch history (history listed newest-first with the tip at
the head, `pre` the commits strictly above `lastCommit`),
`get_new_commits` returns exactly the commits strictly between
`lastCommit` (exclusive) and the branch tip (inclusive), but in
newest-first order; its caller `_poll` reverses the list, so the commits
are delivered onward oldest-first. -/
theorem c1_new_commits_order (s : RepoState) (pre rest : List Commit)
    (lc lc' : Commit) (hlast : s.last_commit = some lc)
    (hhist : s.history = pre ++ lc' :: rest) (hid : lc'.hexsha = lc.hexsha)
    (hpre : ∀ c ∈ pre, c.hexsha ≠ lc.hexsha) :
    (get_new_commits s).1 = pre ∧ (poll_new_commits s).1 = pre.reverse := by
  have h1 : (get_new_commits s).1 = pre := by
    simp [get_new_commits, hlast, hhist,
      commitsBetween_of_split lc pre lc' rest hid hpre]
  exact ⟨h1, by simp [poll_new_commits, h1]⟩

theorem c1_witness :
    stSample.last_commit = some cmBase ∧
    stSample.history = [cmNew, cmOld] ++ cmBase :: [] ∧
    (get_new_commits stSample).1 = [cmNew, cmOld] ∧
    (poll_new_commits stSample).1 = [cmNew, cmOld].reverse :=
  ⟨by decide, by decide,
   c1_new_commits_order stSample [cmNew, cmOld] [] cmBase cmBase (by decide)
     (by decide) (by decide) (by decide)⟩

/-! ### C6 -/

/-- C6: `get_new_commits` is idempotent absent new remote activity: with a
non-null `lastCommit` and a non-empty local history (no fetch between the
calls, so the history term is unchanged), the second consecutive call
returns the empty list and leaves the whole repository state —
`lastCommit` in particular — exactly as the first call left it. -/
theorem c6_idempotent (s : RepoState) (lc : Commit)
    (hlast : s.last_commit = some lc) (hne : s.history ≠ []) :
    get_new_commits (get_new_commits s).2 = ([], (get_new_commits s).2) := by
  obtain ⟨tip, t, hh⟩ : ∃ tip t, s.history = tip :: t := by
    cases hhh : s.history with
    | nil => exact absurd hhh hne
    | cons a b => exact ⟨a, b, rfl⟩
  simp [get_new_commits, hlast, hh, commitsBetween, List.takeWhile]

theorem c6_witness :
    stSample.last_commit = some cmBase ∧ stSample.history ≠ [] ∧
    get_new_commits (get_new_commits stSample).2 =
      ([], (get_new_commits stSample).2) :=
  ⟨by decide, by decide, c6_idempotent stSample cmBase (by decide) (by decide)⟩

/-! ### C9 -/

/-- C9: `get_recent_commits` leaves the repository state unchanged — the
returned state is the input state, so `lastCommit` and the error queue
have the same value after the call as before it, for every count. -/
theorem c9_get_recent_commits_frame (s : RepoState) (count : Nat) :
    (get_recent_commits s count).2 = s ∧
    (get_recent_commits s count).2.last_commit = s.last_commit ∧
    (get_recent_commits s count).2.errors = s.errors :=
  ⟨rfl, rfl, rfl⟩

/-! ### C2 -/

/-- C2 (counterexample): an options dict with both required keys but
neither `channel` nor `channels` passes validation — both keys are listed
as optional (plugin.py:101) — and initialization then fails at
`options.get('channels', options.get('channel')).split()`
(plugin.py:114) with an `AttributeError` on `None`, which names neither
the missing key nor the configuration section. -/
theorem c2_counterexample :
    repository_init "sec".toList optsNoChannel =
      Except.error InitError.noneAttributeError := by
  rfl

/-- C2 (amended): if a required key (`short name`, `url`) is missing,
initialization fails with an error naming the section and that key; if the
required keys are present and an unrecognized key occurs, it fails with an
error naming the section and that key; but if neither `channel` nor
`channels` is present (and the options otherwise validate), it fails with
the unnamed `AttributeError` from `None.split()`, not with a configuration
error naming the key and section. -/
theorem c2_init_validation (sect : Str) (opts : Options) :
    (∀ k, findMissingRequired opts = some k →
        repository_init sect opts =
          Except.error (InitError.missingRequired sect k)) ∧
    (findMissingRequired opts = none → ∀ k, findUnrecognized opts = some k →
        repository_init sect opts =
          Except.error (InitError.unrecognizedValue sect k)) ∧
    (findMissingRequired opts = none → findUnrecognized opts = none →
        optGet opts ("channels").toList = none →
        optGet opts ("channel").toList = none →
        repository_init sect opts =
          Except.error InitError.noneAttributeError) := by
  refine ⟨?_, ?_, ?_⟩
  · intro k hk
    simp [repository_init, hk]
  · intro h0 k hk
    simp [repository_init, h0, hk]
  · intro h0 h1 h2 h3
    unfold repository_init
    rw [h0, h1, h2, h3]
    rfl

theorem c2_witness :
    findMissingRequired optsNoChannel = none ∧
    findUnrecognized optsNoChannel = none ∧
    optGet optsNoChannel ("channels").toList = none ∧
    optGet optsNoChannel ("channel").toList = none ∧
    repository_init "sec".toList optsNoChannel =
      Except.error InitError.noneAttributeError :=
  ⟨by decide, by decide, by decide, by decide,
   (c2_init_validation "sec".toList optsNoChannel).2.2 (by decide) (by decide)
     (by decide) (by decide)⟩

/-! ### C5 -/

/-- C5 (counterexample): `maxCommitsAtOnce` is a `NonNegativeInteger`
(config.py:48-50), so the cap may be 0; then one live commit exceeds the
cap and the summary line is emitted, but `commits[-0:]` is the whole list
(a `-0` slice start is `0`), so the one commit is rendered after it — not
"exactly cap = 0" commits. -/
theorem c5_counterexample :
    display_commits 0 rcSample [cmSample] =
      summary_line 0 1 rcSample.long_name ::
        format_message rcSample cmSample none ∧
    format_message rcSample cmSample none ≠ [] := by
  constructor
  · decide
  · decide

/-- C5 (amended): for a positive cap, when the number of live commits
strictly exceeds the cap, the delivery emits exactly one summary line
followed by the renderings of exactly `cap` commits — the final `cap`
commits of the (oldest-first) list, i.e. the most recent ones; when the
count does not exceed the cap, no summary line is emitted and every commit
is rendered.  (For cap = 0, Python's `commits[-0:]` renders every commit
instead.) -/
theorem c5_burst_cap (cap : Nat) (r : RepoConfig) (commits : List Commit)
    (hcap : 0 < cap) :
    (commits.length > cap →
      display_commits cap r commits =
        summary_line cap commits.length r.long_name ::
          (commits.drop (commits.length - cap)).flatMap
            (fun c => format_message r c none) ∧
      (commits.drop (commits.length - cap)).length = cap) ∧
    (commits.length ≤ cap →
      display_commits cap r commits =
        commits.flatMap (fun c => format_message r c none)) := by
  have hc0 : cap ≠ 0 := Nat.pos_iff_ne_zero.mp hcap
  constructor
  · intro hgt
    constructor
    · simp [display_commits, pyTakeLast, hc0, hgt]
    · rw [List.length_drop]
      exact Nat.sub_sub_self (le_of_lt hgt)
  · intro hle
    have hnot : ¬ (commits.length > cap) := not_lt.mpr hle
    have hdrop : commits.length - cap = 0 := Nat.sub_eq_zero_of_le hle
    simp [display_commits, pyTakeLast, hc0, hnot, hdrop]

theorem c5_witness :
    (0 : Nat) < 1 ∧ [cmSample, cmSample2].length > 1 ∧
    (display_commits 1 rcSample [cmSample, cmSample2] =
        summary_line 1 [cmSample, cmSample2].length rcSample.long_name ::
          ([cmSample, cmSample2].drop ([cmSample, cmSample2].length - 1)).flatMap
            (fun c => format_message rcSample c none) ∧
      ([cmSample, cmSample2].drop ([cmSample, cmSample2].length - 1)).length
        = 1) :=
  ⟨by decide, by decide,
   (c5_burst_cap 1 rcSample [cmSample, cmSample2] (by decide)).1 (by decide)⟩

end SupybotGit
